import Mathlib

/-!
Shallow embedding of the MPF scheduling core (`mpf/core/clock.py`) and the
deterministic test-loop timer structure (`mpf/tests/loop.py`), together with
theorems settling the specification claims about them.

Times and durations are modelled as rationals (`ℚ`), priorities as integers.
Callbacks are modelled symbolically: each `ClockEvent` carries a behaviour key
`cb : ℕ`; a global environment `Env` maps the key to the callback's return
value and its scheduling side effect.  Weak-reference liveness is modelled by
the boolean `cbAlive` (`get_callback` resolves to the behaviour exactly when
the reference is alive).
-/

namespace MpfClock

/-- Return value of a user callback, as tested by `ret is False` in
`ClockBase._process_event_callbacks`: either the exact `False` object or
anything else. -/
inductive CbRet where
  | rfalse : CbRet
  | other : CbRet
deriving DecidableEq, Repr

/-- Scheduling side effect a callback may perform while it runs:
nothing, or calling a trigger event (`ClockEvent.__call__`). -/
inductive CbAction where
  | act_none : CbAction
  | retrigger (eid : ℕ) : CbAction
deriving DecidableEq, Repr

/-- Behaviour of one symbolic callback. -/
structure CbBehavior where
  ret : CbRet
  act : CbAction
deriving DecidableEq, Repr

/-- Environment resolving behaviour keys to callback behaviours. -/
def Env : Type := ℕ → CbBehavior

/-- State of one `ClockEvent` (`mpf/core/clock.py`, class `ClockEvent`).
Field names follow the Python attributes (`_last_dt` → `lastDt`, etc.). -/
structure ClockEvent where
  id : ℕ
  loop : Bool
  cb : ℕ
  cbAlive : Bool
  timeout : ℚ
  lastDt : ℚ
  nextEventTime : ℚ
  lastEventTime : ℚ
  dt : ℚ
  priority : ℤ
  isTriggered : Bool
  callbackCancelled : Bool
deriving DecidableEq, Repr

/-- State of a `ClockBase` instance.  `orderedEvents` holds event ids (the
store key of an event equals its `id`); `frameCallbacks` holds the
`(last_event_time, -priority, id)` triples pushed by
`add_event_to_frame_callbacks`; `log` records the invocations performed by
`_process_event_callbacks` as `(event id, argument)` pairs (the argument is
what Python passes as `callback(self.frametime)`). -/
structure ClockState where
  lastTick : ℚ
  dt : ℚ
  frames : ℕ
  orderedEvents : List ℕ
  frameCallbacks : List (ℚ × ℤ × ℕ)
  events : ℕ → ClockEvent
  counter : ℕ
  log : List (ℕ × ℚ)

/-- Point update of the event store. -/
def upd (f : ℕ → ClockEvent) (i : ℕ) (e : ClockEvent) : ℕ → ClockEvent :=
  fun j => if j = i then e else f j

/-- Replace event `i` in the clock state. -/
def updEvent (s : ClockState) (i : ℕ) (e : ClockEvent) : ClockState :=
  { s with events := upd s.events i e }

/-- `ClockEvent.get_callback`: the strong reference, or the weak reference
when it is not dead; `none` models a dead reference. -/
def getCallback (e : ClockEvent) : Option ℕ :=
  if e.cbAlive then some e.cb else none

/-- `ClockEvent.__call__`: schedule the callback associated with the event.
Returns `some true` when it performed the activation and `none` (Python
`None`) when the event was already triggered. -/
def eventCall (s : ClockState) (i : ℕ) : ClockState × Option Bool :=
  let e := s.events i
  if e.isTriggered = false then
    let e1 := { e with isTriggered := true, lastDt := s.lastTick }
    ({ updEvent s i e1 with orderedEvents := s.orderedEvents ++ [i] }, some true)
  else
    (s, none)

/-- `ClockEvent.cancel`: if triggered, untrigger and remove from
`ordered_events` (a missing element is ignored); always set
`_callback_cancelled`. -/
def eventCancel (s : ClockState) (i : ℕ) : ClockState :=
  let e := s.events i
  let s1 :=
    if e.isTriggered then
      { updEvent s i { e with isTriggered := false } with
        orderedEvents := s.orderedEvents.erase i }
    else s
  updEvent s1 i { s1.events i with callbackCancelled := true }

/-- `ClockEvent.tick(curtime, remove)` where `remove` is
`ordered_events.remove`: fire the event if its time is due, pushing it onto
the clock's frame-callback queue. -/
def eventTick (s : ClockState) (i : ℕ) (curtime : ℚ) : ClockState :=
  let e := s.events i
  if e.timeout > 0 ∧ curtime < e.nextEventTime then s
  else
    let e1 : ClockEvent := { e with dt := curtime - e.lastDt, lastDt := curtime }
    let e2 : ClockEvent :=
      if e1.timeout > 0 then
        { e1 with lastEventTime := e1.nextEventTime,
                  nextEventTime := e1.nextEventTime + e1.timeout }
      else
        { e1 with lastEventTime := curtime, nextEventTime := curtime }
    match getCallback e2 with
    | none =>
        { updEvent s i { e2 with isTriggered := false } with
          orderedEvents := s.orderedEvents.erase i }
    | some _ =>
        let e3 := { e2 with callbackCancelled := false }
        let s1 := { updEvent s i e3 with
          frameCallbacks :=
            s.frameCallbacks ++ [(e3.lastEventTime, -e3.priority, e3.id)] }
        if e3.loop then s1
        else
          { updEvent s1 i { e3 with isTriggered := false } with
            orderedEvents := s1.orderedEvents.erase i }

/-- Comparator used by `ordered_events.sort(key=attrgetter("next_event_time"))`. -/
def nextTimeLe (f : ℕ → ClockEvent) (i j : ℕ) : Prop :=
  (f i).nextEventTime ≤ (f j).nextEventTime

instance (f : ℕ → ClockEvent) : DecidableRel (nextTimeLe f) :=
  fun i j =>
    inferInstanceAs (Decidable ((f i).nextEventTime ≤ (f j).nextEventTime))

instance (f : ℕ → ClockEvent) : IsTotal ℕ (nextTimeLe f) :=
  ⟨fun i j => le_total (f i).nextEventTime (f j).nextEventTime⟩

instance (f : ℕ → ClockEvent) : IsTrans ℕ (nextTimeLe f) :=
  ⟨fun _ _ _ hij hjk => le_trans hij hjk⟩

/-- Loop body of `_process_events`: iterate over the snapshot of the sorted
`ordered_events`, breaking at the first event not yet due, skipping cancelled
events, ticking the rest. -/
def peLoop (snapshot : List ℕ) (s : ClockState) : ClockState :=
  match snapshot with
  | [] => s
  | i :: rest =>
      let e := s.events i
      if e.nextEventTime > s.lastTick then s
      else
        peLoop rest (if e.callbackCancelled then s else eventTick s i s.lastTick)

/-- `ClockBase._process_events`. -/
def processEvents (s : ClockState) : ClockState :=
  if s.orderedEvents = [] then s
  else
    let sorted := s.orderedEvents.insertionSort (nextTimeLe s.events)
    peLoop sorted { s with orderedEvents := sorted }

/-- Lexicographic order on `(last_event_time, -priority, id)` triples, as
Python's tuple comparison performs it in `sorted(self._frame_callbacks)`. -/
def frameLe (a b : ℚ × ℤ × ℕ) : Prop :=
  a.1 < b.1 ∨ (a.1 = b.1 ∧ (a.2.1 < b.2.1 ∨ (a.2.1 = b.2.1 ∧ a.2.2 ≤ b.2.2)))

instance : DecidableRel frameLe := fun a b => by
  unfold frameLe; infer_instance

instance : IsTotal (ℚ × ℤ × ℕ) frameLe := by
  constructor
  intro a b
  unfold frameLe
  rcases lt_trichotomy a.1 b.1 with h | h | h
  · exact Or.inl (Or.inl h)
  · rcases lt_trichotomy a.2.1 b.2.1 with h2 | h2 | h2
    · exact Or.inl (Or.inr ⟨h, Or.inl h2⟩)
    · rcases le_total a.2.2 b.2.2 with h3 | h3
      · exact Or.inl (Or.inr ⟨h, Or.inr ⟨h2, h3⟩⟩)
      · exact Or.inr (Or.inr ⟨h.symm, Or.inr ⟨h2.symm, h3⟩⟩)
    · exact Or.inr (Or.inr ⟨h.symm, Or.inl h2⟩)
  · exact Or.inr (Or.inl h)

instance : IsTrans (ℚ × ℤ × ℕ) frameLe := by
  constructor
  rintro a b c (h1 | ⟨e1, h1 | ⟨f1, g1⟩⟩) (h2 | ⟨e2, h2 | ⟨f2, g2⟩⟩)
  · exact Or.inl (h1.trans h2)
  · exact Or.inl (e2 ▸ h1)
  · exact Or.inl (e2 ▸ h1)
  · exact Or.inl (e1 ▸ h2)
  · exact Or.inr ⟨e1.trans e2, Or.inl (h1.trans h2)⟩
  · exact Or.inr ⟨e1.trans e2, Or.inl (f2 ▸ h1)⟩
  · exact Or.inl (e1 ▸ h2)
  · exact Or.inr ⟨e1.trans e2, Or.inl (f1 ▸ h2)⟩
  · exact Or.inr ⟨e1.trans e2, Or.inr ⟨f1.trans f2, g1.trans g2⟩⟩

/-- The callback invocation performed by `_process_event_callbacks` for one
sorted frame entry, including the `ret is False` cancellation and the
side effect of the callback itself. -/
def pecStep (env : Env) (s : ClockState) (i : ℕ) : ClockState :=
  let e := s.events i
  if e.callbackCancelled then s
  else
    match getCallback e with
    | some c =>
        let s1 := { s with log := s.log ++ [(i, s.dt)] }
        let s2 :=
          match (env c).act with
          | CbAction.act_none => s1
          | CbAction.retrigger j => (eventCall s1 j).1
        if e.loop ∧ (env c).ret = CbRet.rfalse then eventCancel s2 i else s2
    | none =>
        if e.loop then eventCancel s i else s

/-- Loop of `_process_event_callbacks` over the sorted entries. -/
def pecLoop (env : Env) (entries : List (ℚ × ℤ × ℕ)) (s : ClockState) :
    ClockState :=
  match entries with
  | [] => s
  | (_, _, i) :: rest => pecLoop env rest (pecStep env s i)

/-- `ClockBase._process_event_callbacks`: invoke the frame queue in sorted
order, then clear it. -/
def processEventCallbacks (env : Env) (s : ClockState) : ClockState :=
  let entries := s.frameCallbacks.insertionSort frameLe
  { pecLoop env entries s with frameCallbacks := [] }

/-- `ClockBase.tick` with the freshly sampled time passed as `current`
(the sleep phase has no effect on scheduling state and is modelled
separately; the fps counters are omitted as pure diagnostics). -/
def clockTick (env : Env) (s : ClockState) (current : ℚ) : ClockState :=
  let s1 := { s with dt := current - s.lastTick,
                     frames := s.frames + 1,
                     lastTick := current }
  processEventCallbacks env (processEvents s1)

/-- Construction of a `ClockEvent` by `ClockBase`: `schedule_once` passes
`loop := false, trigger := true`, `schedule_interval` passes
`loop := true, trigger := true`, and a bare trigger passes
`trigger := false`.  `starttime` is the clock's `_last_tick`. -/
def mkEvent (s : ClockState) (loop : Bool) (c : ℕ) (alive : Bool)
    (timeout : ℚ) (priority : ℤ) (trigger : Bool) : ClockState × ℕ :=
  let i := s.counter
  let e : ClockEvent :=
    { id := i, loop := loop, cb := c, cbAlive := alive, timeout := timeout,
      lastDt := s.lastTick, nextEventTime := s.lastTick + timeout,
      lastEventTime := 0, dt := 0, priority := priority,
      isTriggered := trigger, callbackCancelled := false }
  let s1 := { updEvent s i e with counter := i + 1 }
  (if trigger then { s1 with orderedEvents := s1.orderedEvents ++ [i] } else s1, i)

/-- `ClockBase.schedule_once`. -/
def scheduleOnce (s : ClockState) (c : ℕ) (alive : Bool) (timeout : ℚ)
    (priority : ℤ) : ClockState × ℕ :=
  mkEvent s false c alive timeout priority true

/-- `ClockBase.schedule_interval`. -/
def scheduleInterval (s : ClockState) (c : ℕ) (alive : Bool) (timeout : ℚ)
    (priority : ℤ) : ClockState × ℕ :=
  mkEvent s true c alive timeout priority true

/-- `ClockBase.get_next_event_time`: `False` (modelled `none`) when no events
are pending, otherwise sort in place and return the earliest
`next_event_time`.  The pair carries the reordered state. -/
def getNextEventTime (s : ClockState) : ClockState × Option ℚ :=
  if s.orderedEvents = [] then (s, none)
  else
    let sorted := s.orderedEvents.insertionSort (nextTimeLe s.events)
    ({ s with orderedEvents := sorted },
      some (s.events (sorted.headI)).nextEventTime)

/-- `ClockBase._get_sleep_time` with the freshly sampled `self.time()` passed
as `now`.  Python's `if next_event_time:` treats both `False` (no events)
and a deadline of exactly `0.0` as falsy. -/
def getSleepTime (s : ClockState) (now : ℚ) : ClockState × ℚ :=
  let r := getNextEventTime s
  match r.2 with
  | none => (r.1, 0)
  | some d => (r.1, if d = 0 then 0 else d - now)

/-- Duration actually slept by `_sleep_until_next_event` when no read sockets
are registered: `usleep(1000000 * sleeptime)` runs only when
`sleeptime > 0`. -/
def sleepDurationNoSockets (s : ClockState) (now : ℚ) : ℚ :=
  let st := (getSleepTime s now).2
  if st > 0 then st else 0

/-- A filler event for unused store slots. -/
def defaultEvent : ClockEvent :=
  { id := 0, loop := false, cb := 0, cbAlive := true, timeout := 0,
    lastDt := 0, nextEventTime := 0, lastEventTime := 0, dt := 0,
    priority := 1, isTriggered := false, callbackCancelled := false }

/-- A freshly constructed clock whose `_last_tick` is `t0` and which has no
pending events (`ClockBase.__init__` with the time source at `t0`). -/
def idleClock (t0 : ℚ) : ClockState :=
  { lastTick := t0, dt := 1 / 10000, frames := 0, orderedEvents := [],
    frameCallbacks := [], events := fun _ => defaultEvent, counter := 0,
    log := [] }

/-- Whether `pecStep` actually invokes the callback of event `i`: the event
is not cancelled and its callback reference resolves. -/
def invokedCond (s : ClockState) (i : ℕ) : Bool :=
  !(s.events i).callbackCancelled && (s.events i).cbAlive

/-- The subsequence of sorted frame entries whose callbacks
`_process_event_callbacks` actually invokes, threading the same state
updates as `pecLoop`. -/
def pecInvoked (env : Env) (entries : List (ℚ × ℤ × ℕ)) (s : ClockState) :
    List (ℚ × ℤ × ℕ) :=
  match entries with
  | [] => []
  | (t, p, i) :: rest =>
      (if invokedCond s i then [(t, p, i)] else []) ++
        pecInvoked env rest (pecStep env s i)

/-- Strict lexicographic order on `(fire time, negated priority, id)`: the
claimed dispatch order (earlier fire time first; then higher priority, i.e.
smaller negated priority; then smaller creation sequence id). -/
def frameLt (a b : ℚ × ℤ × ℕ) : Prop :=
  a.1 < b.1 ∨ (a.1 = b.1 ∧ (a.2.1 < b.2.1 ∨ (a.2.1 = b.2.1 ∧ a.2.2 < b.2.2)))

instance : DecidableRel frameLt := fun a b => by
  unfold frameLt; infer_instance

/-- `k` successive calls of the trigger `ClockEvent.__call__`. -/
def callIter (s : ClockState) (i : ℕ) : ℕ → ClockState
  | 0 => s
  | k + 1 => (eventCall (callIter s i k) i).1

/-- Invariant carried across ticks by the single pending `schedule_interval`
handle with behaviour key `c`, period `T` and baseline `t0`: it is the only
pending handle, the frame queue is drained, exactly `n` invocations have been
logged, and the scheduled fire time is exactly `t0 + (n+1)·T`. -/
def IInv (c : ℕ) (T t0 : ℚ) (n : ℕ) (s : ClockState) : Prop :=
  s.orderedEvents = [0] ∧ s.frameCallbacks = [] ∧ s.log.length = n ∧
  (s.events 0).id = 0 ∧ (s.events 0).loop = true ∧ (s.events 0).cb = c ∧
  (s.events 0).cbAlive = true ∧ (s.events 0).timeout = T ∧
  (s.events 0).nextEventTime = t0 + ((n : ℚ) + 1) * T ∧
  (s.events 0).isTriggered = true ∧ (s.events 0).callbackCancelled = false

end MpfClock

namespace MpfTestLoop

/-- `mpf/tests/loop.py`, class `NextTimers`: the deadline set used for
uniqueness checks, and the heap used to fetch the closest deadline.  The
`heapq` min-heap is embedded by its contract as a `≤`-sorted list whose push
is ordered insertion and whose pop takes the head. -/
structure NextTimers where
  timersSet : List ℚ
  timersHeap : List ℚ
deriving DecidableEq, Repr

/-- Empty `NextTimers` (`__init__`). -/
def NextTimers.empty : NextTimers := ⟨[], []⟩

/-- `NextTimers.add`: a time already present in the set is not added twice;
otherwise it goes in the set and onto the heap. -/
def NextTimers.add (t : NextTimers) (when : ℚ) : NextTimers :=
  if when ∈ t.timersSet then t
  else
    { timersSet := when :: t.timersSet,
      timersHeap := t.timersHeap.orderedInsert (· ≤ ·) when }

/-- `NextTimers.is_empty`. -/
def NextTimers.isEmpty (t : NextTimers) : Bool :=
  t.timersSet.length = 0

/-- `NextTimers.pop_closest`: `none` models the raised `IndexError`;
otherwise pop the heap minimum and remove it from the set. -/
def NextTimers.popClosest (t : NextTimers) : Option (NextTimers × ℚ) :=
  if t.isEmpty then none
  else
    match t.timersHeap with
    | [] => none
    | when :: rest =>
        some ({ timersSet := t.timersSet.erase when, timersHeap := rest }, when)

/-- Virtual-time step of `TimeTravelLoop._run_once`: time jumps to the
closest pending deadline only when the ready queue (`self._ready`) is empty
and some timer is pending. -/
def runOnceAdvance (readyCount : ℕ) (timers : NextTimers) (time : ℚ) :
    NextTimers × ℚ :=
  if readyCount = 0 then
    match timers.popClosest with
    | some (t', when) => (t', when)
    | none => (timers, time)
  else (timers, time)

/-- Representation invariant of `NextTimers`: the heap is min-ordered and
holds exactly the deadlines recorded in the uniqueness set, without
duplicates. -/
def TInv (t : NextTimers) : Prop :=
  t.timersHeap.Sorted (· ≤ ·) ∧ List.Perm t.timersSet t.timersHeap ∧
    t.timersSet.Nodup

end MpfTestLoop

namespace MpfTestLoop

lemma add_mem_set (t : NextTimers) (w : ℚ) : w ∈ (t.add w).timersSet := by
  unfold NextTimers.add
  by_cases h : w ∈ t.timersSet
  · simp [h]
  · simp [h]

lemma tinv_add {t : NextTimers} (w : ℚ) (h : TInv t) : TInv (t.add w) := by
  obtain ⟨hs, hp, hn⟩ := h
  unfold NextTimers.add
  by_cases hw : w ∈ t.timersSet
  · simpa [hw] using ⟨hs, hp, hn⟩
  · refine if_neg hw ▸ ⟨?_, ?_, ?_⟩
    · exact hs.orderedInsert w _
    · exact (hp.cons w).trans (List.perm_orderedInsert _ w _).symm
    · exact List.nodup_cons.mpr ⟨hw, hn⟩

lemma tinv_pop {t : NextTimers} (h : TInv t) (hne : t.isEmpty = false) :
    ∃ t' w, t.popClosest = some (t', w) ∧ w ∈ t.timersSet ∧
      (∀ x ∈ t.timersSet, w ≤ x) ∧ TInv t' ∧
      t'.timersSet = t.timersSet.erase w := by
  obtain ⟨hs, hp, hn⟩ := h
  have hset : t.timersSet ≠ [] := by
    intro hnil
    simp [NextTimers.isEmpty, hnil] at hne
  have hheap : t.timersHeap ≠ [] := by
    intro hnil
    exact hset (hnil ▸ hp).eq_nil
  obtain ⟨w, rest, hw⟩ := List.exists_cons_of_ne_nil hheap
  refine ⟨⟨t.timersSet.erase w, rest⟩, w, ?_, ?_, ?_, ?_, rfl⟩
  · unfold NextTimers.popClosest
    simp [hne, hw]
  · exact hp.mem_iff.mpr (hw ▸ List.mem_cons_self w rest)
  · intro x hx
    have hxh : x ∈ t.timersHeap := hp.subset hx
    rw [hw] at hxh
    rcases List.mem_cons.mp hxh with h1 | h2
    · exact le_of_eq h1.symm
    · exact List.rel_of_sorted_cons (hw ▸ hs) x h2
  · refine ⟨(hw ▸ hs).of_cons, ?_, hn.erase w⟩
    have h2 := hp.erase w
    rw [hw, List.erase_cons_head] at h2
    exact h2

/-- C10: in the deterministic test variant, the deadline structure is
de-duplicated by exact value and min-ordered: `add` of an already-present
deadline changes nothing (idempotent per value), `pop_closest` returns the
minimum of the deadlines added and not yet popped, and `_run_once` advances
virtual time only to that closest pending deadline, and only when the ready
queue has been drained. -/
theorem next_timers_dedup_min_advance :
    (∀ (t : NextTimers) (w : ℚ), (t.add w).add w = t.add w) ∧
    TInv NextTimers.empty ∧
    (∀ (t : NextTimers) (w : ℚ), TInv t → TInv (t.add w)) ∧
    (∀ t : NextTimers, TInv t → t.isEmpty = false →
      ∃ t' w, t.popClosest = some (t', w) ∧ w ∈ t.timersSet ∧
        (∀ x ∈ t.timersSet, w ≤ x) ∧ TInv t' ∧
        t'.timersSet = t.timersSet.erase w) ∧
    (∀ (r : ℕ) (t : NextTimers) (time : ℚ), r ≠ 0 →
      runOnceAdvance r t time = (t, time)) ∧
    (∀ (r : ℕ) (t t' : NextTimers) (time w : ℚ), r = 0 →
      t.popClosest = some (t', w) → runOnceAdvance r t time = (t', w)) := by
  refine ⟨?_, ?_, ?_, ?_, ?_, ?_⟩
  · intro t w
    have hmem : w ∈ (t.add w).timersSet := add_mem_set t w
    generalize hu : t.add w = u at hmem ⊢
    simp [NextTimers.add, hmem]
  · exact ⟨List.sorted_nil, List.Perm.refl _, List.nodup_nil⟩
  · exact fun t w h => tinv_add w h
  · exact fun t h hne => tinv_pop h hne
  · intro r t time hr
    unfold runOnceAdvance
    simp [hr]
  · intro r t t' time w hr hpop
    unfold runOnceAdvance
    simp [hr, hpop]

/-- Witness for C10 at a concrete timer structure. -/
theorem next_timers_dedup_min_advance_witness :
    ∃ t' w, ((NextTimers.empty.add 3).add 1).popClosest = some (t', w) ∧
      w ∈ ((NextTimers.empty.add 3).add 1).timersSet ∧
      (∀ x ∈ ((NextTimers.empty.add 3).add 1).timersSet, w ≤ x) ∧ TInv t' ∧
      t'.timersSet = ((NextTimers.empty.add 3).add 1).timersSet.erase w :=
  next_timers_dedup_min_advance.2.2.2.1 ((NextTimers.empty.add 3).add 1)
    (next_timers_dedup_min_advance.2.2.1 _ 1
      (next_timers_dedup_min_advance.2.2.1 _ 3
        next_timers_dedup_min_advance.2.1))
    (by decide)

end MpfTestLoop

namespace MpfClock

lemma getNextEventTime_none_iff (s : ClockState) :
    (getNextEventTime s).2 = none ↔ s.orderedEvents = [] := by
  unfold getNextEventTime
  by_cases he : s.orderedEvents = [] <;> simp [he]

lemma getNextEventTime_min (s : ClockState) (d : ℚ)
    (h : (getNextEventTime s).2 = some d) :
    (∃ j ∈ s.orderedEvents, (s.events j).nextEventTime = d) ∧
      ∀ j ∈ s.orderedEvents, d ≤ (s.events j).nextEventTime := by
  unfold getNextEventTime at h
  by_cases he : s.orderedEvents = []
  · simp [he] at h
  · simp only [he, if_false] at h
    have hperm := List.perm_insertionSort (nextTimeLe s.events) s.orderedEvents
    have hsort := List.sorted_insertionSort (nextTimeLe s.events) s.orderedEvents
    have hne : s.orderedEvents.insertionSort (nextTimeLe s.events) ≠ [] := by
      intro hnil
      exact he (hperm.symm.trans (hnil ▸ List.Perm.refl _)).eq_nil
    obtain ⟨a, rest, hL⟩ := List.exists_cons_of_ne_nil hne
    have hd : d = (s.events a).nextEventTime := by
      rw [hL] at h
      simpa using h.symm
    constructor
    · exact ⟨a, hperm.subset (hL ▸ List.mem_cons_self a rest), hd.symm⟩
    · intro j hj
      have hjL : j ∈ s.orderedEvents.insertionSort (nextTimeLe s.events) :=
        hperm.mem_iff.mpr hj
      rw [hL] at hjL hsort
      rcases List.mem_cons.mp hjL with h1 | h2
      · exact le_of_eq (h1 ▸ hd)
      · exact hd ▸ List.rel_of_sorted_cons hsort j h2

/-- C9: `get_next_event_time` reports no deadline exactly when no handle is
pending, and otherwise reports the earliest `next_event_time` over the
pending handles; with no read sockets registered, the engine sleeps for
exactly that deadline minus the current time, and does not sleep when there
is no deadline or the remaining time is nonpositive. -/
theorem wait_phase_deadline_and_sleep (s : ClockState) (now : ℚ)
    (h0 : 0 ≤ now) :
    ((getNextEventTime s).2 = none ↔ s.orderedEvents = []) ∧
    (∀ d, (getNextEventTime s).2 = some d →
      (∃ j ∈ s.orderedEvents, (s.events j).nextEventTime = d) ∧
        ∀ j ∈ s.orderedEvents, d ≤ (s.events j).nextEventTime) ∧
    (s.orderedEvents = [] → sleepDurationNoSockets s now = 0) ∧
    (∀ d, (getNextEventTime s).2 = some d →
      sleepDurationNoSockets s now = max (d - now) 0) := by
  refine ⟨getNextEventTime_none_iff s, fun d hd => getNextEventTime_min s d hd,
    ?_, ?_⟩
  · intro he
    have hn : (getNextEventTime s).2 = none := (getNextEventTime_none_iff s).mpr he
    unfold sleepDurationNoSockets getSleepTime
    simp [hn]
  · intro d hd
    unfold sleepDurationNoSockets getSleepTime
    simp only [hd]
    by_cases hz : d = 0
    · subst hz
      have h1 : ¬ ((0 : ℚ) - now > 0) := by linarith
      simp [max_eq_right, h1]
      linarith
    · simp only [hz, if_false]
      by_cases hp : d - now > 0
      · simp [hp, max_eq_left (le_of_lt hp)]
      · simp only [hp, if_false]
        rw [max_eq_right (by linarith)]

/-- Witness for C9 on a concrete one-event clock. -/
theorem wait_phase_deadline_and_sleep_witness :
    (((getNextEventTime ((scheduleOnce (idleClock 0) 5 true 3 1).1)).2 = none ↔
      ((scheduleOnce (idleClock 0) 5 true 3 1).1).orderedEvents = []) ∧
    (∀ d, ((getNextEventTime ((scheduleOnce (idleClock 0) 5 true 3 1).1)).2 = some d →
      (∃ j ∈ ((scheduleOnce (idleClock 0) 5 true 3 1).1).orderedEvents,
        (((scheduleOnce (idleClock 0) 5 true 3 1).1).events j).nextEventTime = d) ∧
        ∀ j ∈ ((scheduleOnce (idleClock 0) 5 true 3 1).1).orderedEvents,
          d ≤ (((scheduleOnce (idleClock 0) 5 true 3 1).1).events j).nextEventTime)) ∧
    (((scheduleOnce (idleClock 0) 5 true 3 1).1).orderedEvents = [] →
      sleepDurationNoSockets ((scheduleOnce (idleClock 0) 5 true 3 1).1) 1 = 0) ∧
    (∀ d, (getNextEventTime ((scheduleOnce (idleClock 0) 5 true 3 1).1)).2 = some d →
      sleepDurationNoSockets ((scheduleOnce (idleClock 0) 5 true 3 1).1) 1 =
        max (d - 1) 0)) :=
  wait_phase_deadline_and_sleep ((scheduleOnce (idleClock 0) 5 true 3 1).1) 1
    (by norm_num)

end MpfClock

namespace MpfClock

lemma frameLe_ne_lt {a b : ℚ × ℤ × ℕ} (h : frameLe a b) (hne : a.2.2 ≠ b.2.2) :
    frameLt a b := by
  rcases h with h1 | ⟨e1, h1 | ⟨f1, g1⟩⟩
  · exact Or.inl h1
  · exact Or.inr ⟨e1, Or.inl h1⟩
  · exact Or.inr ⟨e1, Or.inr ⟨f1, lt_of_le_of_ne g1 hne⟩⟩

lemma eventCall_fst_log (s : ClockState) (j : ℕ) :
    ((eventCall s j).1).log = s.log := by
  unfold eventCall updEvent
  by_cases h : (s.events j).isTriggered = false <;> simp [h]

lemma eventCall_fst_dt (s : ClockState) (j : ℕ) :
    ((eventCall s j).1).dt = s.dt := by
  unfold eventCall updEvent
  by_cases h : (s.events j).isTriggered = false <;> simp [h]

lemma eventCancel_log (s : ClockState) (i : ℕ) :
    (eventCancel s i).log = s.log := by
  unfold eventCancel updEvent
  by_cases h : (s.events i).isTriggered <;> simp [h]

lemma eventCancel_dt (s : ClockState) (i : ℕ) :
    (eventCancel s i).dt = s.dt := by
  unfold eventCancel updEvent
  by_cases h : (s.events i).isTriggered <;> simp [h]

lemma pecStep_log (env : Env) (s : ClockState) (i : ℕ) :
    (pecStep env s i).log =
      s.log ++ (if invokedCond s i then [(i, s.dt)] else []) := by
  unfold pecStep invokedCond getCallback
  by_cases hc : (s.events i).callbackCancelled
  · simp [hc]
  · by_cases ha : (s.events i).cbAlive
    · rcases hact : (env (s.events i).cb).act with _ | j <;>
      by_cases hl : (s.events i).loop ∧ (env (s.events i).cb).ret = CbRet.rfalse <;>
      simp [hc, ha, hact, hl, eventCancel_log, eventCall_fst_log]
    · by_cases hl : (s.events i).loop <;>
      simp [hc, ha, hl, eventCancel_log]

lemma pecStep_dt (env : Env) (s : ClockState) (i : ℕ) :
    (pecStep env s i).dt = s.dt := by
  unfold pecStep getCallback
  by_cases hc : (s.events i).callbackCancelled
  · simp [hc]
  · by_cases ha : (s.events i).cbAlive
    · rcases hact : (env (s.events i).cb).act with _ | j <;>
      by_cases hl : (s.events i).loop ∧ (env (s.events i).cb).ret = CbRet.rfalse <;>
      simp [hc, ha, hact, hl, eventCancel_dt, eventCall_fst_dt]
    · by_cases hl : (s.events i).loop <;>
      simp [hc, ha, hl, eventCancel_dt]

lemma pecLoop_log (env : Env) :
    ∀ (entries : List (ℚ × ℤ × ℕ)) (s : ClockState),
      (pecLoop env entries s).log =
        s.log ++ (pecInvoked env entries s).map (fun e => (e.2.2, s.dt))
  | [], s => by simp [pecLoop, pecInvoked]
  | (t, p, i) :: rest, s => by
      rw [show pecLoop env ((t, p, i) :: rest) s =
            pecLoop env rest (pecStep env s i) from rfl]
      rw [pecLoop_log env rest (pecStep env s i)]
      rw [show pecInvoked env ((t, p, i) :: rest) s =
            (if invokedCond s i then [(t, p, i)] else []) ++
              pecInvoked env rest (pecStep env s i) from rfl]
      rw [pecStep_log, pecStep_dt]
      by_cases h : invokedCond s i <;> simp [h]

lemma pecInvoked_sublist (env : Env) :
    ∀ (entries : List (ℚ × ℤ × ℕ)) (s : ClockState),
      (pecInvoked env entries s).Sublist entries
  | [], _ => List.Sublist.refl []
  | (t, p, i) :: rest, s => by
      rw [show pecInvoked env ((t, p, i) :: rest) s =
            (if invokedCond s i then [(t, p, i)] else []) ++
              pecInvoked env rest (pecStep env s i) from rfl]
      by_cases h : invokedCond s i
      · simpa [h] using
          (pecInvoked_sublist env rest (pecStep env s i)).cons₂ (t, p, i)
      · simpa [h] using
          (pecInvoked_sublist env rest (pecStep env s i)).cons (t, p, i)

/-- C1: within one tick, the callbacks actually invoked by
`_process_event_callbacks` run in strictly ascending order of the triple
`(fire time, negated priority, creation sequence id)`: earlier fire time
first; for equal fire times the higher priority (smaller negated priority)
first; for equal fire time and priority, the smaller sequence id first.  The
first conjunct orders the invoked entries; the second ties them to the
invocation log the dispatch actually produces. -/
theorem frame_dispatch_in_order (env : Env) (s : ClockState)
    (h : (s.frameCallbacks.map (fun e => e.2.2)).Nodup) :
    List.Pairwise frameLt
      (pecInvoked env (s.frameCallbacks.insertionSort frameLe) s) ∧
    (processEventCallbacks env s).log =
      s.log ++ (pecInvoked env (s.frameCallbacks.insertionSort frameLe) s).map
        (fun e => (e.2.2, s.dt)) := by
  constructor
  · have hsorted : List.Sorted frameLe (s.frameCallbacks.insertionSort frameLe) :=
      List.sorted_insertionSort frameLe s.frameCallbacks
    have hsub := pecInvoked_sublist env (s.frameCallbacks.insertionSort frameLe) s
    have hle : List.Pairwise frameLe
        (pecInvoked env (s.frameCallbacks.insertionSort frameLe) s) :=
      hsorted.sublist hsub
    have hperm : List.Perm
        ((s.frameCallbacks.insertionSort frameLe).map (fun e => e.2.2))
        (s.frameCallbacks.map (fun e => e.2.2)) :=
      (List.perm_insertionSort frameLe s.frameCallbacks).map _
    have hnodupL : ((s.frameCallbacks.insertionSort frameLe).map
        (fun e => e.2.2)).Nodup := hperm.nodup_iff.mpr h
    have hpairneL : List.Pairwise (fun a b : ℚ × ℤ × ℕ => a.2.2 ≠ b.2.2)
        (s.frameCallbacks.insertionSort frameLe) :=
      List.pairwise_map.mp hnodupL
    have hpairne : List.Pairwise (fun a b : ℚ × ℤ × ℕ => a.2.2 ≠ b.2.2)
        (pecInvoked env (s.frameCallbacks.insertionSort frameLe) s) :=
      hpairneL.sublist hsub
    exact (hle.and hpairne).imp (fun hab => frameLe_ne_lt hab.1 hab.2)
  · unfold processEventCallbacks
    simpa using pecLoop_log env (s.frameCallbacks.insertionSort frameLe) s

/-- Witness for C1: two same-fire-time entries, ids 1 (priority 5) and 0
(priority 1); the higher-priority one is invoked first. -/
theorem frame_dispatch_in_order_witness :
    List.Pairwise frameLt
      (pecInvoked (fun _ => ⟨CbRet.other, CbAction.act_none⟩)
        (({ idleClock 0 with
            frameCallbacks := [(0, -1, 0), (0, -5, 1)] } :
              ClockState).frameCallbacks.insertionSort frameLe)
        { idleClock 0 with frameCallbacks := [(0, -1, 0), (0, -5, 1)] }) ∧
    (processEventCallbacks (fun _ => ⟨CbRet.other, CbAction.act_none⟩)
        { idleClock 0 with frameCallbacks := [(0, -1, 0), (0, -5, 1)] }).log =
      ({ idleClock 0 with
          frameCallbacks := [(0, -1, 0), (0, -5, 1)] } : ClockState).log ++
        (pecInvoked (fun _ => ⟨CbRet.other, CbAction.act_none⟩)
          (({ idleClock 0 with
              frameCallbacks := [(0, -1, 0), (0, -5, 1)] } :
                ClockState).frameCallbacks.insertionSort frameLe)
          { idleClock 0 with
            frameCallbacks := [(0, -1, 0), (0, -5, 1)] }).map
          (fun e => (e.2.2, ({ idleClock 0 with
            frameCallbacks := [(0, -1, 0), (0, -5, 1)] } : ClockState).dt)) :=
  frame_dispatch_in_order (fun _ => ⟨CbRet.other, CbAction.act_none⟩)
    { idleClock 0 with frameCallbacks := [(0, -1, 0), (0, -5, 1)] }
    (by decide)

end MpfClock

namespace MpfClock

lemma IInv_schedule (c : ℕ) (T t0 : ℚ) (p : ℤ) :
    IInv c T t0 0 (scheduleInterval (idleClock t0) c true T p).1 := by
  unfold IInv scheduleInterval mkEvent idleClock updEvent upd
  norm_num

lemma IInv_tick (env : Env) (c : ℕ) (T t0 : ℚ) (hT : 0 < T)
    (hret : (env c).ret ≠ CbRet.rfalse)
    (hact : (env c).act = CbAction.act_none)
    {n : ℕ} {s : ClockState} (h : IInv c T t0 n s) (t : ℚ) :
    IInv c T t0 n (clockTick env s t) ∨
      IInv c T t0 (n + 1) (clockTick env s t) := by
  obtain ⟨h1, h2, h3, h4, h5, h6, h7, h8, h9, h10, h11⟩ := h
  by_cases hdue : t < t0 + ((n : ℚ) + 1) * T
  · left
    refine ⟨?_, ?_, ?_, ?_, ?_, ?_, ?_, ?_, ?_, ?_, ?_⟩ <;>
      simp [clockTick, processEvents, processEventCallbacks, peLoop, pecLoop,
        pecStep, eventTick, getCallback, updEvent, upd,
        List.insertionSort, List.orderedInsert,
        h1, h2, h3, h4, h5, h6, h7, h8, h9, h10, h11, hdue]
  · right
    refine ⟨?_, ?_, ?_, ?_, ?_, ?_, ?_, ?_, ?_, ?_, ?_⟩ <;>
      simp [clockTick, processEvents, processEventCallbacks, peLoop, pecLoop,
        pecStep, eventTick, getCallback, updEvent, upd,
        List.insertionSort, List.orderedInsert,
        h1, h2, h3, h4, h5, h6, h7, h8, h9, h10, h11, hdue, hT, hret, hact]
    all_goals ring

lemma IInv_run (env : Env) (c : ℕ) (T t0 : ℚ) (hT : 0 < T)
    (hret : (env c).ret ≠ CbRet.rfalse)
    (hact : (env c).act = CbAction.act_none) :
    ∀ (ts : List ℚ) {n : ℕ} {s : ClockState}, IInv c T t0 n s →
      ∃ m, IInv c T t0 m (ts.foldl (clockTick env) s)
  | [], n, _, h => ⟨n, h⟩
  | t :: ts, _, s, h => by
      rcases IInv_tick env c T t0 hT hret hact h t with h' | h'
      · exact IInv_run env c T t0 hT hret hact ts h'
      · exact IInv_run env c T t0 hT hret hact ts h'

/-- C2: a repeating handle created by `schedule_interval` with period `T > 0`
at baseline `t0` has, after its `n`-th firing (`n` = number of logged
invocations), a `next_fire_time` of exactly `t0 + (n+1)·T`, for every
sequence of tick times whatsoever: each reschedule adds exactly `T` to the
previously scheduled fire time, never to the actual fire time. -/
theorem interval_reschedule_drift_free (env : Env) (c : ℕ) (T t0 : ℚ)
    (p : ℤ) (hT : 0 < T) (hret : (env c).ret ≠ CbRet.rfalse)
    (hact : (env c).act = CbAction.act_none) (ts : List ℚ) :
    (((ts.foldl (clockTick env)
        (scheduleInterval (idleClock t0) c true T p).1).events 0).nextEventTime) =
      t0 + (((ts.foldl (clockTick env)
        (scheduleInterval (idleClock t0) c true T p).1).log.length : ℚ) + 1) * T := by
  obtain ⟨m, hm⟩ :=
    IInv_run env c T t0 hT hret hact ts (IInv_schedule c T t0 p)
  obtain ⟨_, _, h3, _, _, _, _, _, h9, _, _⟩ := hm
  rw [h9, h3]

/-- Witness for C2: period 5 from baseline 0, ticks at 6, 13, 14, 30 fire the
handle three times and leave `next_fire_time` at exactly 20. -/
theorem interval_reschedule_drift_free_witness :
    ((((([6, 13, 14, 30] : List ℚ).foldl
        (clockTick (fun _ => ⟨CbRet.other, CbAction.act_none⟩))
        (scheduleInterval (idleClock 0) 7 true 5 1).1).events 0).nextEventTime) =
      0 + ((((([6, 13, 14, 30] : List ℚ).foldl
        (clockTick (fun _ => ⟨CbRet.other, CbAction.act_none⟩))
        (scheduleInterval (idleClock 0) 7 true 5 1).1).log.length : ℚ) + 1) * 5)) :=
  interval_reschedule_drift_free (fun _ => ⟨CbRet.other, CbAction.act_none⟩)
    7 5 0 1 (by norm_num) (by simp) (by simp) [6, 13, 14, 30]

end MpfClock

namespace MpfClock

lemma tick_empty (env : Env) {s : ClockState} (h1 : s.orderedEvents = [])
    (h2 : s.frameCallbacks = []) (t : ℚ) :
    (clockTick env s t).orderedEvents = [] ∧
      (clockTick env s t).frameCallbacks = [] ∧
      (clockTick env s t).log = s.log := by
  refine ⟨?_, ?_, ?_⟩ <;>
    simp [clockTick, processEvents, processEventCallbacks, pecLoop,
      List.insertionSort, h1, h2]

lemma run_empty (env : Env) :
    ∀ (ts : List ℚ) {s : ClockState}, s.orderedEvents = [] →
      s.frameCallbacks = [] → (ts.foldl (clockTick env) s).log = s.log
  | [], _, _, _ => rfl
  | t :: ts, s, h1, h2 => by
      obtain ⟨g1, g2, g3⟩ := tick_empty env h1 h2 t
      rw [List.foldl_cons, run_empty env ts g1 g2, g3]

/-- C6: a repeating handle whose callback returns exactly `False` on a firing
is cancelled after that firing — removed from the pending events,
`_callback_cancelled` set — and is never invoked again on any later ticks;
if the callback returns anything else, the handle remains scheduled and
uncancelled. -/
theorem interval_stops_on_false (env : Env) (c : ℕ) (T t0 t : ℚ) (p : ℤ)
    (hT : 0 < T) (hfire : t0 + T ≤ t)
    (hact : (env c).act = CbAction.act_none) :
    ((env c).ret = CbRet.rfalse →
      (clockTick env (scheduleInterval (idleClock t0) c true T p).1 t).orderedEvents
          = [] ∧
      ((clockTick env (scheduleInterval (idleClock t0) c true T p).1 t).events 0).callbackCancelled
          = true ∧
      (clockTick env (scheduleInterval (idleClock t0) c true T p).1 t).log
          = [(0, t - t0)] ∧
      ∀ ts : List ℚ, (ts.foldl (clockTick env)
          (clockTick env (scheduleInterval (idleClock t0) c true T p).1 t)).log
          = [(0, t - t0)]) ∧
    ((env c).ret ≠ CbRet.rfalse →
      (clockTick env (scheduleInterval (idleClock t0) c true T p).1 t).orderedEvents
          = [0] ∧
      ((clockTick env (scheduleInterval (idleClock t0) c true T p).1 t).events 0).isTriggered
          = true ∧
      ((clockTick env (scheduleInterval (idleClock t0) c true T p).1 t).events 0).callbackCancelled
          = false) := by
  have hnd : ¬ (t < t0 + T) := not_lt.mpr hfire
  constructor
  · intro hret
    have g1 : (clockTick env (scheduleInterval (idleClock t0) c true T p).1 t).orderedEvents
        = [] := by
      simp [clockTick, processEvents, processEventCallbacks, peLoop, pecLoop,
        pecStep, eventTick, eventCancel, getCallback, updEvent, upd,
        scheduleInterval, mkEvent, idleClock, List.insertionSort,
        List.orderedInsert, hnd, hT, hret, hact]
    have g2 : ((clockTick env (scheduleInterval (idleClock t0) c true T p).1 t).events 0).callbackCancelled
        = true := by
      simp [clockTick, processEvents, processEventCallbacks, peLoop, pecLoop,
        pecStep, eventTick, eventCancel, getCallback, updEvent, upd,
        scheduleInterval, mkEvent, idleClock, List.insertionSort,
        List.orderedInsert, hnd, hT, hret, hact]
    have g3 : (clockTick env (scheduleInterval (idleClock t0) c true T p).1 t).log
        = [(0, t - t0)] := by
      simp [clockTick, processEvents, processEventCallbacks, peLoop, pecLoop,
        pecStep, eventTick, eventCancel, getCallback, updEvent, upd,
        scheduleInterval, mkEvent, idleClock, List.insertionSort,
        List.orderedInsert, hnd, hT, hret, hact]
    have g4 : (clockTick env (scheduleInterval (idleClock t0) c true T p).1 t).frameCallbacks
        = [] := by
      simp [clockTick, processEventCallbacks]
    exact ⟨g1, g2, g3, fun ts => (run_empty env ts g1 g4).trans g3⟩
  · intro hret
    refine ⟨?_, ?_, ?_⟩ <;>
      simp [clockTick, processEvents, processEventCallbacks, peLoop, pecLoop,
        pecStep, eventTick, eventCancel, getCallback, updEvent, upd,
        scheduleInterval, mkEvent, idleClock, List.insertionSort,
        List.orderedInsert, hnd, hT, hret, hact]

/-- Witness for C6 with a callback returning exactly `False` at a concrete
firing. -/
theorem interval_stops_on_false_witness :
    (clockTick (fun _ => ⟨CbRet.rfalse, CbAction.act_none⟩)
        (scheduleInterval (idleClock 0) 7 true 5 1).1 6).orderedEvents = [] ∧
    ((clockTick (fun _ => ⟨CbRet.rfalse, CbAction.act_none⟩)
        (scheduleInterval (idleClock 0) 7 true 5 1).1 6).events 0).callbackCancelled
        = true ∧
    (clockTick (fun _ => ⟨CbRet.rfalse, CbAction.act_none⟩)
        (scheduleInterval (idleClock 0) 7 true 5 1).1 6).log = [(0, 6 - 0)] ∧
    ∀ ts : List ℚ, (ts.foldl
        (clockTick (fun _ => ⟨CbRet.rfalse, CbAction.act_none⟩))
        (clockTick (fun _ => ⟨CbRet.rfalse, CbAction.act_none⟩)
          (scheduleInterval (idleClock 0) 7 true 5 1).1 6)).log = [(0, 6 - 0)] :=
  (interval_stops_on_false (fun _ => ⟨CbRet.rfalse, CbAction.act_none⟩)
    7 5 0 6 1 (by norm_num) (by norm_num) rfl).1 rfl

end MpfClock

namespace MpfClock

/-- C8: a handle whose weak callback reference is dead (`cbAlive = false`,
modelling `WeakMethod.is_dead()`) is, at its next eligibility check, retired
without any callback invocation and removed from the pending events; no
error is raised (the model stays total) and the handle ends untriggered. -/
theorem dead_callback_retires_silently (env : Env) (c : ℕ) (d t0 t : ℚ)
    (p : ℤ) (L : Bool) (hdue : t0 + d ≤ t) :
    (clockTick env (mkEvent (idleClock t0) L c false d p true).1 t).orderedEvents
        = [] ∧
    (clockTick env (mkEvent (idleClock t0) L c false d p true).1 t).log = [] ∧
    ((clockTick env (mkEvent (idleClock t0) L c false d p true).1 t).events 0).isTriggered
        = false := by
  have hnd : ¬ (t < t0 + d) := not_lt.mpr hdue
  by_cases hd : (0 : ℚ) < d <;>
    refine ⟨?_, ?_, ?_⟩ <;>
    simp [clockTick, processEvents, processEventCallbacks, peLoop, pecLoop,
      pecStep, eventTick, getCallback, updEvent, upd, mkEvent, idleClock,
      List.insertionSort, List.orderedInsert, hnd, hd]

/-- Witness for C8: a dead-reference interval handle due at tick time 5. -/
theorem dead_callback_retires_silently_witness :
    (clockTick (fun _ => ⟨CbRet.other, CbAction.act_none⟩)
        (mkEvent (idleClock 0) true 3 false 2 1 true).1 5).orderedEvents = [] ∧
    (clockTick (fun _ => ⟨CbRet.other, CbAction.act_none⟩)
        (mkEvent (idleClock 0) true 3 false 2 1 true).1 5).log = [] ∧
    ((clockTick (fun _ => ⟨CbRet.other, CbAction.act_none⟩)
        (mkEvent (idleClock 0) true 3 false 2 1 true).1 5).events 0).isTriggered
        = false :=
  dead_callback_retires_silently (fun _ => ⟨CbRet.other, CbAction.act_none⟩)
    3 2 0 5 1 true (by norm_num)

lemma setCancelled_eq (e : ClockEvent) (h : e.callbackCancelled = true) :
    { e with callbackCancelled := true } = e := by
  cases e
  simp_all

lemma upd_self (f : ℕ → ClockEvent) (i : ℕ) : upd f i (f i) = f := by
  funext j
  unfold upd
  by_cases hj : j = i <;> simp [hj]

lemma cancel_of_cancelled (s : ClockState) (i : ℕ)
    (h1 : (s.events i).isTriggered = false)
    (h2 : (s.events i).callbackCancelled = true) :
    eventCancel s i = s := by
  unfold eventCancel
  simp only [h1, Bool.false_eq_true, if_false]
  rw [← h1, ← h2]
  show updEvent s i (s.events i) = s
  unfold updEvent
  rw [upd_self]

lemma eventCancel_events_self (s : ClockState) (i : ℕ) :
    ((eventCancel s i).events i).isTriggered = false ∧
      ((eventCancel s i).events i).callbackCancelled = true := by
  unfold eventCancel updEvent upd
  by_cases h : (s.events i).isTriggered <;> simp [h]

lemma erase_filter_ne (i : ℕ) :
    ∀ l : List ℕ, (l.erase i).filter (fun x => x != i) =
      l.filter (fun x => x != i)
  | [] => rfl
  | a :: l => by
      by_cases h : a = i
      · subst h
        simp [List.erase_cons_head, List.filter_cons]
      · rw [List.erase_cons_tail (by simpa using h)]
        simp only [List.filter_cons]
        by_cases h2 : (a != i) = true
        · rw [if_pos (by simpa using h2), if_pos (by simpa using h2),
            erase_filter_ne i l]
        · simp at h2
          exact absurd h2 h

/-- C7: cancelling a handle before it becomes due yields zero invocations on
all subsequent ticks; `cancel` is idempotent (a second cancel is a no-op),
it never touches any other handle's state, it leaves the pending list
untouched when the handle is already untriggered, and it never disturbs the
pending list entries of other handles. -/
theorem cancel_before_due_and_idempotent (env : Env) :
    (∀ (c : ℕ) (d t0 : ℚ) (p : ℤ) (ts : List ℚ),
      (ts.foldl (clockTick env)
        (eventCancel (scheduleOnce (idleClock t0) c true d p).1 0)).log = []) ∧
    (∀ (s : ClockState) (i : ℕ),
      eventCancel (eventCancel s i) i = eventCancel s i) ∧
    (∀ (s : ClockState) (i j : ℕ), j ≠ i →
      (eventCancel s i).events j = s.events j) ∧
    (∀ (s : ClockState) (i : ℕ), (s.events i).isTriggered = false →
      (eventCancel s i).orderedEvents = s.orderedEvents) ∧
    (∀ (s : ClockState) (i : ℕ),
      (eventCancel s i).orderedEvents.filter (fun x => x != i) =
        s.orderedEvents.filter (fun x => x != i)) := by
  refine ⟨?_, ?_, ?_, ?_, ?_⟩
  · intro c d t0 p ts
    have h1 : (eventCancel (scheduleOnce (idleClock t0) c true d p).1 0).orderedEvents
        = [] := by
      simp [eventCancel, scheduleOnce, mkEvent, idleClock, updEvent, upd]
    have h2 : (eventCancel (scheduleOnce (idleClock t0) c true d p).1 0).frameCallbacks
        = [] := by
      simp [eventCancel, scheduleOnce, mkEvent, idleClock, updEvent, upd]
    have h3 : (eventCancel (scheduleOnce (idleClock t0) c true d p).1 0).log
        = [] := by
      simp [eventCancel, scheduleOnce, mkEvent, idleClock, updEvent, upd]
    rw [run_empty env ts h1 h2, h3]
  · intro s i
    obtain ⟨htrig, hcanc⟩ := eventCancel_events_self s i
    exact cancel_of_cancelled (eventCancel s i) i htrig hcanc
  · intro s i j hji
    unfold eventCancel updEvent upd
    by_cases h : (s.events i).isTriggered <;> simp [h, hji]
  · intro s i h
    unfold eventCancel updEvent upd
    simp [h]
  · intro s i
    unfold eventCancel updEvent upd
    by_cases h : (s.events i).isTriggered
    · simp only [h, if_true]
      exact erase_filter_ne i s.orderedEvents
    · simp [h]

/-- Witness for C7 at concrete states. -/
theorem cancel_before_due_and_idempotent_witness :
    ((([3, 9] : List ℚ).foldl
        (clockTick (fun _ => ⟨CbRet.other, CbAction.act_none⟩))
        (eventCancel (scheduleOnce (idleClock 0) 4 true 2 1).1 0)).log = []) ∧
    (eventCancel (eventCancel (idleClock 0) 0) 0 = eventCancel (idleClock 0) 0) ∧
    ((eventCancel (idleClock 0) 0).events 1 = (idleClock 0).events 1) ∧
    ((eventCancel (idleClock 0) 0).orderedEvents = (idleClock 0).orderedEvents) :=
  ⟨(cancel_before_due_and_idempotent (fun _ => ⟨CbRet.other, CbAction.act_none⟩)).1
      4 2 0 1 [3, 9],
   (cancel_before_due_and_idempotent (fun _ => ⟨CbRet.other, CbAction.act_none⟩)).2.1
      (idleClock 0) 0,
   (cancel_before_due_and_idempotent (fun _ => ⟨CbRet.other, CbAction.act_none⟩)).2.2.1
      (idleClock 0) 0 1 (by decide),
   (cancel_before_due_and_idempotent (fun _ => ⟨CbRet.other, CbAction.act_none⟩)).2.2.2.1
      (idleClock 0) 0 rfl⟩

end MpfClock

namespace MpfClock

lemma cbret_other_ne_rfalse : CbRet.other ≠ CbRet.rfalse := fun h => nomatch h

/-- C3 (divergence exhibit): `ClockBase.tick` runs the due-selection and
dispatch cycle exactly once per tick — `max_iteration` is never consulted and
no warning path exists in `tick`.  A before-next-frame handle (timeout `-1`)
whose callback re-arms it fires exactly once within the tick, the re-armed
handle is left pending for the next tick, and the next tick fires it exactly
once more — not up to 10 times within one tick as documented. -/
theorem before_frame_single_pass_per_tick :
    (clockTick (fun _ => ⟨CbRet.other, CbAction.retrigger 0⟩)
        (scheduleOnce (idleClock 0) 0 true (-1) 1).1 1).log = [(0, 1)] ∧
    (clockTick (fun _ => ⟨CbRet.other, CbAction.retrigger 0⟩)
        (scheduleOnce (idleClock 0) 0 true (-1) 1).1 1).orderedEvents = [0] ∧
    (clockTick (fun _ => ⟨CbRet.other, CbAction.retrigger 0⟩)
        (clockTick (fun _ => ⟨CbRet.other, CbAction.retrigger 0⟩)
          (scheduleOnce (idleClock 0) 0 true (-1) 1).1 1) 2).log =
      [(0, 1), (0, 1)] := by
  refine ⟨?_, ?_, ?_⟩ <;>
    norm_num [clockTick, processEvents, processEventCallbacks, peLoop, pecLoop,
      pecStep, eventTick, eventCall, eventCancel, getCallback, updEvent, upd,
      mkEvent, scheduleOnce, idleClock, List.insertionSort,
      List.orderedInsert, frameLe, nextTimeLe, cbret_other_ne_rfalse]

/-- C4 (counterexample): a trigger handle with timeout 10 created at time 0
and activated twice (baseline of the first activation: clock time 0) fires at
the tick at time 11 (after an idle tick at time 6) with argument `5` — the
clock frametime `11 - 6` — although the elapsed time from the first
activation's baseline is `11 - 0 = 11`; and the second activation returns
`None` (no value), not `False`. -/
theorem trigger_claim_counterexample :
    (eventCall ((eventCall (mkEvent (idleClock 0) false 9 true 10 1 false).1
        0).1) 0).2 ≠ some false ∧
    (clockTick (fun _ => ⟨CbRet.other, CbAction.act_none⟩)
        (clockTick (fun _ => ⟨CbRet.other, CbAction.act_none⟩)
          (callIter (mkEvent (idleClock 0) false 9 true 10 1 false).1 0 2) 6)
        11).log = [(0, 5)] ∧
    (11 : ℚ) - 0 = 11 ∧ (5 : ℚ) ≠ 11 := by
  refine ⟨by decide, ?_, by norm_num, by norm_num⟩
  norm_num [clockTick, processEvents, processEventCallbacks, peLoop, pecLoop,
    pecStep, eventTick, eventCall, eventCancel, getCallback, updEvent, upd,
    mkEvent, idleClock, callIter, List.insertionSort, List.orderedInsert,
    frameLe, nextTimeLe, cbret_other_ne_rfalse]

/-- C4 (amended): calling a trigger handle `k ≥ 1` times before it fires
coalesces into a single pending activation and exactly one invocation; the
activating call returns `True` (`some true`), every further call returns
`None`, and the single invocation's argument is the clock frametime
`t3 - t2` (time since the previous tick), not the elapsed time since the
first activation's baseline. -/
theorem trigger_coalesces_once (env : Env) (c : ℕ) (T t0 t2 t3 : ℚ) (p : ℤ)
    (k : ℕ) (hT : 0 < T) (hk : 1 ≤ k) (h2 : t2 < t0 + T) (h3 : t0 + T ≤ t3)
    (hact : (env c).act = CbAction.act_none) :
    callIter (mkEvent (idleClock t0) false c true T p false).1 0 k =
      (eventCall (mkEvent (idleClock t0) false c true T p false).1 0).1 ∧
    (eventCall (mkEvent (idleClock t0) false c true T p false).1 0).2 =
      some true ∧
    (eventCall
      ((eventCall (mkEvent (idleClock t0) false c true T p false).1 0).1)
      0).2 = none ∧
    (clockTick env (clockTick env
        (callIter (mkEvent (idleClock t0) false c true T p false).1 0 k) t2)
        t3).log = [(0, t3 - t2)] := by
  have htrig : ((((eventCall (mkEvent (idleClock t0) false c true T p false).1
      0).1)).events 0).isTriggered = true := by
    simp [eventCall, mkEvent, idleClock, updEvent, upd]
  have hidem : ∀ s' : ClockState, ((s'.events 0).isTriggered = true) →
      (eventCall s' 0).1 = s' := by
    intro s' h
    simp [eventCall, h]
  have hidem2 : ∀ s' : ClockState, ((s'.events 0).isTriggered = true) →
      (eventCall s' 0).2 = none := by
    intro s' h
    simp [eventCall, h]
  have hcollapse : ∀ m : ℕ,
      callIter (mkEvent (idleClock t0) false c true T p false).1 0 (m + 1) =
        (eventCall (mkEvent (idleClock t0) false c true T p false).1 0).1 := by
    intro m
    induction m with
    | zero => rfl
    | succ m ih =>
        show (eventCall (callIter (mkEvent (idleClock t0) false c true T p
          false).1 0 (m + 1)) 0).1 = _
        rw [ih]
        exact hidem _ htrig
  obtain ⟨m, rfl⟩ : ∃ m, k = m + 1 :=
    ⟨k - 1, (Nat.succ_pred_eq_of_pos hk).symm⟩
  have hnd3 : ¬ (t3 < t0 + T) := not_lt.mpr h3
  refine ⟨hcollapse m, ?_, ?_, ?_⟩
  · simp [eventCall, mkEvent, idleClock, updEvent, upd]
  · exact hidem2 _ htrig
  · rw [hcollapse m]
    simp [clockTick, processEvents, processEventCallbacks, peLoop, pecLoop,
      pecStep, eventTick, eventCall, getCallback, updEvent, upd, mkEvent,
      idleClock, List.insertionSort, List.orderedInsert, h2, hnd3, hT, hact]

/-- Witness for the amended C4 at concrete inputs. -/
theorem trigger_coalesces_once_witness :
    callIter (mkEvent (idleClock 0) false 9 true 10 1 false).1 0 2 =
      (eventCall (mkEvent (idleClock 0) false 9 true 10 1 false).1 0).1 ∧
    (eventCall (mkEvent (idleClock 0) false 9 true 10 1 false).1 0).2 =
      some true ∧
    (eventCall
      ((eventCall (mkEvent (idleClock 0) false 9 true 10 1 false).1 0).1)
      0).2 = none ∧
    (clockTick (fun _ => ⟨CbRet.other, CbAction.act_none⟩)
        (clockTick (fun _ => ⟨CbRet.other, CbAction.act_none⟩)
          (callIter (mkEvent (idleClock 0) false 9 true 10 1 false).1 0 2) 6)
        11).log = [(0, 11 - 6)] :=
  trigger_coalesces_once (fun _ => ⟨CbRet.other, CbAction.act_none⟩)
    9 10 0 6 11 1 2 (by norm_num) (by norm_num) (by norm_num) (by norm_num)
    rfl

/-- C5 (divergence exhibit): `_process_event_callbacks` passes
`self.frametime` — the global time since the previous tick — to every
callback, not the handle's own elapsed time.  Interval handle, period 5 from
baseline 0, ticks at 6, 8, 13: the second invocation receives argument
`5 = 13 - 8` while the elapsed time since the handle's previous firing —
the `_dt` the handle itself computed — is `7 = 13 - 6`. -/
theorem callback_arg_is_global_frametime :
    (([6, 8, 13] : List ℚ).foldl
        (clockTick (fun _ => ⟨CbRet.other, CbAction.act_none⟩))
        (scheduleInterval (idleClock 0) 7 true 5 1).1).log =
      [(0, 6), (0, 5)] ∧
    ((([6, 8, 13] : List ℚ).foldl
        (clockTick (fun _ => ⟨CbRet.other, CbAction.act_none⟩))
        (scheduleInterval (idleClock 0) 7 true 5 1).1).events 0).dt = 7 ∧
    (5 : ℚ) ≠ 7 := by
  refine ⟨?_, ?_, by norm_num⟩ <;>
    norm_num [clockTick, processEvents, processEventCallbacks, peLoop, pecLoop,
      pecStep, eventTick, eventCall, eventCancel, getCallback, updEvent, upd,
      mkEvent, scheduleInterval, idleClock, List.insertionSort,
      List.orderedInsert, frameLe, nextTimeLe, cbret_other_ne_rfalse]

end MpfClock
